import Mathlib

/-!
Shallow embedding of jhbruhn/jellyfin-radio (src/player.rs, src/streamer.rs,
src/main.rs) for verifying the specification's claims about the Player queue,
the Controllable/Controller command bridge, the render fill loop and the
interstitial scheduler.

Modelling conventions:
* An audio source (`Sound` trait object) is modelled as a finite script of
  pull results; once the script is exhausted the source keeps reporting
  Finished, matching a decoded track that has ended.
* `f32` arithmetic is modelled over `ℚ` (exact reals); the Rust `as i16`
  cast is modelled as truncation toward zero with saturation at the i16
  bounds, which is the defined behaviour of Rust float-to-int `as` casts.
* The std `mpsc` channel between `PlayerController` and `PlayerControllable`
  is modelled as the list of sent-but-not-yet-received commands plus a flag
  `senderAlive` recording whether any controller handle still exists.
  Buffered messages survive the drop of all senders, and `try_recv` reports
  `Disconnected` only once the buffer is empty and all senders are gone,
  exactly as documented for `std::sync::mpsc`.
-/

/-- The `awedio::NextSample` enum: one PCM sample or a control sentinel. -/
inductive NextSample where
  | sample (v : ℤ)
  | metadataChanged
  | paused
  | finished
deriving DecidableEq, Repr

/-- The `Result<NextSample, awedio::Error>` type of a pull. -/
inductive PullResult where
  | ok (n : NextSample)
  | err
deriving DecidableEq, Repr

/-- A `Box<dyn Sound>` handed to the Player: a finite script of pull
results (one per `next_sample` call), after which it reports Finished. -/
structure Sound where
  script : List PullResult
deriving DecidableEq, Repr

/-- One `next_sample` call on a scripted source. -/
def Sound.next_sample : Sound → PullResult × Sound
  | ⟨[]⟩ => (.ok .finished, ⟨[]⟩)
  | ⟨r :: rest⟩ => (r, ⟨rest⟩)

/-- `Sound::on_start_of_batch` for a decoded track: no observable effect. -/
def Sound.on_start_of_batch (s : Sound) : Sound := s

/-- The `Player` struct of src/player.rs. -/
structure Player where
  sounds : List Sound
  was_empty : Bool
  song_prefetch : ℕ
  volume_adjustment : ℚ
deriving DecidableEq, Repr

/-- `Player::add`: append a sound, remembering whether the queue was empty. -/
def Player.add (p : Player) (sound : Sound) : Player :=
  if p.sounds.isEmpty then
    { p with was_empty := true, sounds := p.sounds ++ [sound] }
  else
    { p with sounds := p.sounds ++ [sound] }

/-- `Player::set_volume`. -/
def Player.set_volume (p : Player) (new : ℚ) : Player :=
  { p with volume_adjustment := new }

/-- `Player::should_prefetch`: queue length at or below the threshold. -/
def Player.should_prefetch (p : Player) : Bool :=
  decide (p.sounds.length ≤ p.song_prefetch)

/-- Truncation toward zero of a rational, the rounding used by Rust
float-to-integer `as` casts. -/
def ratTrunc (x : ℚ) : ℤ :=
  if 0 ≤ x then ⌊x⌋ else ⌈x⌉

/-- The Rust cast `as i16` from `f32`: truncate toward zero, saturating at
the i16 bounds. -/
def f32ToI16 (x : ℚ) : ℤ :=
  if x ≤ -32768 then -32768
  else if 32767 ≤ x then 32767
  else ratTrunc x

/-- The volume scaling `(s as f32 * self.volume_adjustment) as i16` from
`Player::next_sample`. -/
def scaleSample (vol : ℚ) (s : ℤ) : ℤ :=
  f32ToI16 ((s : ℚ) * vol)

/-- `Player::next_sample` (src/player.rs lines 99-131), returning the
`Result` together with the updated player. -/
def Player.next_sample (p : Player) : PullResult × Player :=
  match p.sounds with
  | [] => (.ok .finished, p)
  | s :: rest =>
    if p.was_empty then
      (.ok .metadataChanged, { p with was_empty := false })
    else
      match s.next_sample with
      | (.ok (.sample v), s') =>
        (.ok (.sample (scaleSample p.volume_adjustment v)),
         { p with sounds := s' :: rest })
      | (.ok .metadataChanged, s') =>
        (.ok .metadataChanged, { p with sounds := s' :: rest })
      | (.ok .paused, s') =>
        (.ok .paused, { p with sounds := s' :: rest })
      | (.ok .finished, _) =>
        if rest.isEmpty then (.ok .finished, { p with sounds := rest })
        else (.ok .metadataChanged, { p with sounds := rest })
      | (.err, _) =>
        if rest.isEmpty then (.ok .finished, { p with sounds := rest })
        else (.ok .metadataChanged, { p with sounds := rest })

/-- `Player::on_start_of_batch`: forward the batch boundary to each sound. -/
def Player.on_start_of_batch (p : Player) : Player :=
  { p with sounds := p.sounds.map Sound.on_start_of_batch }

/-- A command sent from a `PlayerController`: the two closures the
controller can produce (`PlayerController::add`, `PlayerController::set_volume`). -/
inductive Command where
  | add (sound : Sound)
  | setVolume (vol : ℚ)
deriving DecidableEq, Repr

/-- Running one command closure against the inner player. -/
def Command.apply : Command → Player → Player
  | .add sound, p => p.add sound
  | .setVolume v, p => p.set_volume v

/-- The `PlayerControllable` bridge together with its channel state:
`pending` is the buffer of sent-but-unreceived commands and `senderAlive`
records whether any `PlayerController` handle still exists. -/
structure PlayerControllable where
  inner : Player
  pending : List Command
  senderAlive : Bool
  finished : Bool
deriving DecidableEq, Repr

/-- The state produced by `Player::new`: empty player, empty channel, a
live controller, not finished. -/
def Player.new (song_prefetch : ℕ) : PlayerControllable :=
  { inner := { sounds := [], was_empty := false, song_prefetch := song_prefetch,
               volume_adjustment := 1 }
    pending := []
    senderAlive := true
    finished := false }

/-- `PlayerController::send_command`: enqueue a command closure. The
receiver (the controllable) exists whenever this state exists, so the send
always succeeds. -/
def PlayerControllable.send_command (st : PlayerControllable) (c : Command) :
    PlayerControllable :=
  { st with pending := st.pending ++ [c] }

/-- The `try_recv` drain loop of `PlayerControllable::on_start_of_batch`:
pop and run commands until the buffer is empty; report `Disconnected`
(and set `finished`) only when the buffer is empty and no sender remains. -/
def drainLoop : List Command → Player → Bool → Bool → Player × Bool
  | [], inner, alive, finished => if alive then (inner, finished) else (inner, true)
  | c :: rest, inner, alive, finished => drainLoop rest (c.apply inner) alive finished

/-- Result of one `PlayerControllable::next_sample` call: the pull result,
the successor state, and whether the queue-next-song notification was
issued during the call. -/
structure PullStep where
  res : PullResult
  state : PlayerControllable
  notified : Bool
deriving DecidableEq, Repr

/-- `PlayerControllable::next_sample` (src/player.rs lines 151-173). -/
def PlayerControllable.next_sample (st : PlayerControllable) : PullStep :=
  match st.inner.next_sample with
  | (.err, inner) => ⟨.err, { st with inner := inner }, false⟩
  | (.ok (.sample v), inner) =>
    ⟨.ok (.sample v), { st with inner := inner }, false⟩
  | (.ok .paused, inner) =>
    ⟨.ok .paused, { st with inner := inner }, false⟩
  | (.ok .metadataChanged, inner) =>
    ⟨.ok .metadataChanged, { st with inner := inner }, inner.should_prefetch⟩
  | (.ok .finished, inner) =>
    if st.finished then ⟨.ok .finished, { st with inner := inner }, false⟩
    else ⟨.ok .paused, { st with inner := inner }, false⟩

/-- `PlayerControllable::on_start_of_batch` (src/player.rs lines 175-188):
drain and run all pending commands, observe disconnection, then check the
prefetch condition and forward the batch boundary; the returned Bool
records whether the queue-next-song notification was issued. -/
def PlayerControllable.on_start_of_batch (st : PlayerControllable) :
    PlayerControllable × Bool :=
  match drainLoop st.pending st.inner st.senderAlive st.finished with
  | (inner, finished) =>
    ({ st with inner := inner.on_start_of_batch, pending := [], finished := finished },
     inner.should_prefetch)

/-- One observable step of the bridge system: a controller sends a command,
all controller handles are dropped, a render batch starts, or a sample is
pulled. -/
inductive BridgeStep : PlayerControllable → PlayerControllable → Prop where
  | send (st : PlayerControllable) (c : Command) (halive : st.senderAlive = true) :
      BridgeStep st (st.send_command c)
  | dropControllers (st : PlayerControllable) :
      BridgeStep st { st with senderAlive := false }
  | batch (st : PlayerControllable) :
      BridgeStep st st.on_start_of_batch.1
  | pull (st : PlayerControllable) :
      BridgeStep st st.next_sample.state

/-- States reachable from a freshly created player bridge. -/
def BridgeReachable (song_prefetch : ℕ) (st : PlayerControllable) : Prop :=
  Relation.ReflTransGen BridgeStep (Player.new song_prefetch) st

/-- Iterate `n` render batch starts (`on_start_of_batch` calls). -/
def batchTicks : ℕ → PlayerControllable → PlayerControllable
  | 0, st => st
  | n + 1, st => batchTicks n st.on_start_of_batch.1

/-- Remaining content of a scripted sound. -/
def Sound.size (s : Sound) : ℕ := s.script.length

/-- A measure of remaining player content: total script length, queue
length, and the pending one-shot boundary flag. Every pull that returns
MetadataChanged strictly consumes it. -/
def Player.size (p : Player) : ℕ :=
  (p.sounds.map Sound.size).sum + p.sounds.length + (if p.was_empty then 1 else 0)

/-- Measure of a bridge state, for termination of the mixing pull. -/
def PlayerControllable.size (st : PlayerControllable) : ℕ := st.inner.size

/-- Modelled from the spec: the awedio `SoundMixer`/`Renderer` chain that
sits between the `PlayerControllable` and the fill loop of
`StreamerBackend::start` is an external crate, not under src/. Per the
spec, the mixer normalizes a child's MetadataChanged internally (it
re-wraps the child with converters and pulls again; the renderer's output
metadata never changes mid-batch), forwards samples, pauses and finishes,
and propagates errors. -/
def mixPull (st : PlayerControllable) : PullResult × PlayerControllable :=
  match h : st.next_sample.res with
  | .ok .metadataChanged => mixPull st.next_sample.state
  | .ok (.sample v) => (.ok (.sample v), st.next_sample.state)
  | .ok .paused => (.ok .paused, st.next_sample.state)
  | .ok .finished => (.ok .finished, st.next_sample.state)
  | .err => (.err, st.next_sample.state)
termination_by st.size
decreasing_by
  have key : ∀ p : Player, p.next_sample.1 = .ok .metadataChanged →
      p.next_sample.2.size < p.size := by
    intro p hmd
    rcases p with ⟨sounds, wasE, pre, vol⟩
    cases sounds with
    | nil => simp [Player.next_sample] at hmd
    | cons s rest =>
      cases wasE with
      | true => simp [Player.next_sample, Player.size]
      | false =>
        rcases s with ⟨scr⟩
        cases scr with
        | nil =>
          cases hrest : rest.isEmpty with
          | true =>
            simp [Player.next_sample, Sound.next_sample, hrest] at hmd
          | false =>
            simp [Player.next_sample, Sound.next_sample, hrest, Player.size,
              Sound.size]
        | cons r0 scr2 =>
          cases r0 with
          | err =>
            cases hrest : rest.isEmpty with
            | true =>
              simp [Player.next_sample, Sound.next_sample, hrest] at hmd
            | false =>
              simp [Player.next_sample, Sound.next_sample, hrest, Player.size,
                Sound.size]
              omega
          | ok n0 =>
            cases n0 with
            | sample v => simp [Player.next_sample, Sound.next_sample] at hmd
            | paused => simp [Player.next_sample, Sound.next_sample] at hmd
            | metadataChanged =>
              simp [Player.next_sample, Sound.next_sample, Player.size,
                Sound.size]
            | finished =>
              cases hrest : rest.isEmpty with
              | true =>
                simp [Player.next_sample, Sound.next_sample, hrest] at hmd
              | false =>
                simp [Player.next_sample, Sound.next_sample, hrest, Player.size,
                  Sound.size]
                omega
  rcases hp : st.inner.next_sample with ⟨r, inner2⟩
  have hk := key st.inner
  rw [hp] at hk
  simp only [PlayerControllable.next_sample, hp] at h ⊢
  cases r with
  | err => simp at h
  | ok n =>
    cases n with
    | sample v => simp at h
    | paused => simp at h
    | finished =>
      cases hf : st.finished <;> simp [hf] at h
    | metadataChanged =>
      simpa [PlayerControllable.size] using hk rfl

/-- The render buffer length of src/streamer.rs. -/
def BUFFER_SIZE : ℕ := 2000

/-- The buffer fill loop of `StreamerBackend::start` (src/streamer.rs lines
44-59): pull one value per slot; a Sample contributes its value, Paused and
Finished degrade to silence; an error (`expect`) or a mid-batch
MetadataChanged (`unreachable!`) aborts the tick, modelled as `none`. -/
def fillLoop : ℕ → PlayerControllable → Option (List ℤ × PlayerControllable)
  | 0, st => some ([], st)
  | n + 1, st =>
    match mixPull st with
    | (.err, _) => none
    | (.ok .metadataChanged, _) => none
    | (.ok (.sample v), st2) =>
      (fillLoop n st2).map (fun r => (v :: r.1, r.2))
    | (.ok .paused, st2) =>
      (fillLoop n st2).map (fun r => ((0 : ℤ) :: r.1, r.2))
    | (.ok .finished, st2) =>
      (fillLoop n st2).map (fun r => ((0 : ℤ) :: r.1, r.2))

/-- The next-slot selection of the interstitial task (src/main.rs lines
182-191): the first sorted key strictly after `now`, else the first sorted
key overall. Times of day are minutes since midnight. -/
def nextSlot (keys : List ℕ) (now : ℕ) : Option ℕ :=
  match (keys.mergeSort).filter (fun k => decide (now < k)) with
  | t :: _ => some t
  | [] => keys.mergeSort.head?

/-- The target instant computation (src/main.rs lines 193-213): the chosen
slot, on today (day offset 0) when it is still ahead, otherwise on the
following day (day offset 1). -/
def nextInterstitial (keys : List ℕ) (now : ℕ) : Option (ℕ × ℕ) :=
  match nextSlot keys now with
  | none => none
  | some t => if now < t then some (0, t) else some (1, t)

/-! ## Helper lemmas -/

theorem drainLoop_eq (cmds : List Command) (inner : Player) (alive finished : Bool) :
    drainLoop cmds inner alive finished =
      (cmds.foldl (fun p c => c.apply p) inner, if alive then finished else true) := by
  induction cmds generalizing inner with
  | nil => cases alive <;> rfl
  | cons c rest ih => simp [drainLoop, ih, List.foldl_cons]

theorem Player.on_start_of_batch_id (p : Player) : p.on_start_of_batch = p := by
  have hmap : Sound.on_start_of_batch = id := rfl
  simp [Player.on_start_of_batch, hmap, List.map_id]

theorem Command.apply_song_prefetch (c : Command) (p : Player) :
    (c.apply p).song_prefetch = p.song_prefetch := by
  cases c <;> simp [Command.apply, Player.add, Player.set_volume] <;> split <;> rfl

theorem foldl_apply_song_prefetch (cmds : List Command) (p : Player) :
    (cmds.foldl (fun p c => c.apply p) p).song_prefetch = p.song_prefetch := by
  induction cmds generalizing p with
  | nil => rfl
  | cons c rest ih => simp [List.foldl_cons, ih, Command.apply_song_prefetch]

theorem Player.next_sample_song_prefetch (p : Player) :
    p.next_sample.2.song_prefetch = p.song_prefetch := by
  rcases p with ⟨sounds, wasE, pre, vol⟩
  cases sounds with
  | nil => rfl
  | cons s rest =>
    cases wasE with
    | true => rfl
    | false =>
      rcases s with ⟨scr⟩
      cases scr with
      | nil => simp [Player.next_sample, Sound.next_sample] <;> split <;> rfl
      | cons r0 scr2 =>
        rcases r0 with n0 | _
        · cases n0 <;> simp [Player.next_sample, Sound.next_sample] <;> split <;> rfl
        · simp [Player.next_sample, Sound.next_sample] <;> split <;> rfl

theorem PlayerControllable.next_sample_state (st : PlayerControllable) :
    st.next_sample.state = { st with inner := st.inner.next_sample.2 } := by
  unfold PlayerControllable.next_sample
  rcases hp : st.inner.next_sample with ⟨r, inner2⟩
  rcases r with n | _
  · cases n <;> simp [hp] <;> split <;> rfl
  · simp [hp]

theorem PlayerControllable.on_start_of_batch_eq (st : PlayerControllable) :
    st.on_start_of_batch =
      ({ st with
          inner := st.pending.foldl (fun p c => c.apply p) st.inner,
          pending := [],
          finished := if st.senderAlive then st.finished else true },
        (st.pending.foldl (fun p c => c.apply p) st.inner).should_prefetch) := by
  unfold PlayerControllable.on_start_of_batch
  rw [drainLoop_eq]
  simp [Player.on_start_of_batch_id]

theorem Player.next_sample_no_error (p : Player) : p.next_sample.1 ≠ .err := by
  rcases p with ⟨sounds, wasE, pre, vol⟩
  cases sounds with
  | nil => simp [Player.next_sample]
  | cons s rest =>
    cases wasE with
    | true => simp [Player.next_sample]
    | false =>
      rcases s with ⟨scr⟩
      cases scr with
      | nil =>
        cases hrest : rest.isEmpty <;>
          simp [Player.next_sample, Sound.next_sample, hrest]
      | cons r0 scr2 =>
        rcases r0 with n0 | _
        · cases n0 <;> cases hrest : rest.isEmpty <;>
            simp [Player.next_sample, Sound.next_sample, hrest]
        · cases hrest : rest.isEmpty <;>
            simp [Player.next_sample, Sound.next_sample, hrest]

theorem PlayerControllable.pull_no_error (st : PlayerControllable) :
    st.next_sample.res ≠ .err := by
  have hok := st.inner.next_sample_no_error
  unfold PlayerControllable.next_sample
  rcases hp : st.inner.next_sample with ⟨r, inner2⟩
  rw [hp] at hok
  rcases r with n | _
  · cases n <;> simp [hp] <;> split <;> simp
  · simp at hok

theorem mixPull_ok (st : PlayerControllable) :
    (mixPull st).1 ≠ .err ∧ (mixPull st).1 ≠ .ok .metadataChanged := by
  induction st using mixPull.induct with
  | case1 x h ih =>
    unfold mixPull
    split <;> simp_all
  | case2 x v h =>
    unfold mixPull
    split <;> simp_all
  | case3 x h =>
    unfold mixPull
    split <;> simp_all
  | case4 x h =>
    unfold mixPull
    split <;> simp_all
  | case5 x h =>
    exact absurd h x.pull_no_error

theorem fillLoop_total (n : ℕ) (st : PlayerControllable) :
    ∃ buf st2, fillLoop n st = some (buf, st2) ∧ buf.length = n := by
  induction n generalizing st with
  | zero => exact ⟨[], st, rfl, rfl⟩
  | succ n ih =>
    have hok := mixPull_ok st
    rcases hm : mixPull st with ⟨r, stm⟩
    rw [hm] at hok
    rcases r with n0 | _
    · cases n0 with
      | sample v =>
        rcases ih stm with ⟨buf, st3, hf, hl⟩
        exact ⟨v :: buf, st3, by simp [fillLoop, hm, hf], by simp [hl]⟩
      | paused =>
        rcases ih stm with ⟨buf, st3, hf, hl⟩
        exact ⟨0 :: buf, st3, by simp [fillLoop, hm, hf], by simp [hl]⟩
      | finished =>
        rcases ih stm with ⟨buf, st3, hf, hl⟩
        exact ⟨0 :: buf, st3, by simp [fillLoop, hm, hf], by simp [hl]⟩
      | metadataChanged => simp at hok
    · simp at hok

theorem foldl_apply_volume_append (cmds : List Command) (p : Player) (v : ℚ) :
    ((cmds ++ [Command.setVolume v]).foldl (fun p c => c.apply p) p).volume_adjustment
      = v := by
  rw [List.foldl_append]
  rfl

theorem batchTicks_pending_nil (n : ℕ) (st : PlayerControllable)
    (h : st.pending = []) :
    (batchTicks n st).inner = st.inner ∧ (batchTicks n st).pending = [] := by
  induction n generalizing st with
  | zero => exact ⟨rfl, h⟩
  | succ n ih =>
    have hb := st.on_start_of_batch_eq
    have h1 : st.on_start_of_batch.1.pending = [] := by rw [hb]
    have h2 : st.on_start_of_batch.1.inner = st.inner := by rw [hb]; simp [h]
    rcases ih st.on_start_of_batch.1 h1 with ⟨hi, hp⟩
    exact ⟨by simpa [batchTicks, h2] using hi, by simpa [batchTicks] using hp⟩

theorem bridgeStep_finished_inv {a b : PlayerControllable} (h : BridgeStep a b)
    (hinv : a.finished = true → a.senderAlive = false) :
    b.finished = true → b.senderAlive = false := by
  cases h with
  | send c halive => simpa [PlayerControllable.send_command] using hinv
  | dropControllers => simp
  | batch =>
    rw [a.on_start_of_batch_eq]
    cases ha : a.senderAlive with
    | false => simp [ha]
    | true =>
      intro hf
      simp [ha] at hf
      exact absurd (hinv hf) (by simp [ha])
  | pull =>
    rw [a.next_sample_state]
    simpa using hinv

theorem bridgeReachable_finished_inv {k : ℕ} {st : PlayerControllable}
    (h : BridgeReachable k st) : st.finished = true → st.senderAlive = false := by
  unfold BridgeReachable at h
  induction h with
  | refl => intro hf; simp [Player.new] at hf
  | tail hab hstep ih => exact bridgeStep_finished_inv hstep ih

/-! ## Claims -/

/-- Claim C1: `on_start_of_batch` drains the pending command queue and
applies every command exactly once in the FIFO order they were sent
(a left fold of the queue over the inner player, leaving the queue empty),
while `next_sample` never applies a command: it leaves the pending queue
untouched and advances the inner player only by its own pull, so no sample
produced between two `on_start_of_batch` calls observes a partially-applied
mutation. -/
theorem claim1_batch_drains_fifo (st : PlayerControllable) :
    st.on_start_of_batch.1.inner = st.pending.foldl (fun p c => c.apply p) st.inner
    ∧ st.on_start_of_batch.1.pending = []
    ∧ st.next_sample.state.pending = st.pending
    ∧ st.next_sample.state.inner = st.inner.next_sample.2 := by
  refine ⟨?_, ?_, ?_, ?_⟩
  · rw [st.on_start_of_batch_eq]
  · rw [st.on_start_of_batch_eq]
  · rw [st.next_sample_state]
  · rw [st.next_sample_state]

/-- Claim C2 counterexample: a Player holding exactly one track whose pull
reports Finished does not return MetadataChanged on that pull; it returns
Finished immediately, with the queue now empty. -/
theorem claim2_counterexample :
    (({ sounds := [⟨[.ok .finished]⟩], was_empty := false, song_prefetch := 2,
              volume_adjustment := 1 } : Player).next_sample).1
        ≠ .ok .metadataChanged
    ∧ (({ sounds := [⟨[.ok .finished]⟩], was_empty := false, song_prefetch := 2,
              volume_adjustment := 1 } : Player).next_sample).1 = .ok .finished
    ∧ (({ sounds := [⟨[.ok .finished]⟩], was_empty := false, song_prefetch := 2,
              volume_adjustment := 1 } : Player).next_sample).2.sounds = [] := by
  refine ⟨by decide, rfl, rfl⟩

/-- Claim C2 (amended): when the head source reports Finished or a decode
error on a pull (and no one-shot boundary is pending), that pull discards
the head; it returns MetadataChanged when another track remains in the
queue, and Finished when the discarded head was the last track. -/
theorem claim2_track_boundary (snd : Sound) (rest : List Sound) (p : Player)
    (hs : p.sounds = snd :: rest) (hw : p.was_empty = false)
    (hf : (snd.next_sample).1 = .ok .finished ∨ (snd.next_sample).1 = .err) :
    (p.next_sample).1 =
      (if rest.isEmpty then .ok .finished else .ok .metadataChanged)
    ∧ (p.next_sample).2.sounds = rest := by
  rcases p with ⟨sounds, wasE, pre, vol⟩
  simp only [] at hs hw
  subst hs
  subst hw
  rcases hsnd : snd.next_sample with ⟨r, s2⟩
  rw [hsnd] at hf
  simp only [] at hf
  rcases hf with hf | hf <;> subst hf <;>
    cases hrest : rest.isEmpty <;>
      simp [Player.next_sample, hsnd, hrest]

/-- Claim C2 amended-theorem witness: a two-track player whose head
finishes yields MetadataChanged and keeps the second track queued. -/
theorem claim2_witness :
    (({ sounds := [⟨[]⟩, ⟨[.ok (.sample 3)]⟩], was_empty := false,
              song_prefetch := 2,
              volume_adjustment := 1 } : Player).next_sample).1
        = .ok .metadataChanged
    ∧ (({ sounds := [⟨[]⟩, ⟨[.ok (.sample 3)]⟩], was_empty := false,
              song_prefetch := 2,
              volume_adjustment := 1 } : Player).next_sample).2.sounds
        = [⟨[.ok (.sample 3)]⟩] := by
  have h := claim2_track_boundary ⟨[]⟩ [⟨[.ok (.sample 3)]⟩]
    { sounds := [⟨[]⟩, ⟨[.ok (.sample 3)]⟩], was_empty := false,
      song_prefetch := 2, volume_adjustment := 1 } rfl rfl (Or.inl rfl)
  simpa using h

/-- Claim C4: adding a source to a Player with an empty queue makes the
very next `next_sample` call return MetadataChanged, before the newly
added source is asked for a sample (its script is still untouched in the
queue afterwards). -/
theorem claim4_add_to_empty_emits_boundary (p : Player) (s : Sound)
    (h : p.sounds = []) :
    ((p.add s).next_sample).1 = .ok .metadataChanged
    ∧ ((p.add s).next_sample).2.sounds = [s] := by
  rcases p with ⟨sounds, wasE, pre, vol⟩
  simp only [] at h
  subst h
  simp [Player.add, Player.next_sample]

/-- Claim C4 witness: the empty fresh player plus one track. -/
theorem claim4_witness :
    ((({ sounds := [], was_empty := false, song_prefetch := 2,
              volume_adjustment := 1 } : Player).add
            ⟨[.ok (.sample 5)]⟩).next_sample).1
      = .ok .metadataChanged
    ∧ ((({ sounds := [], was_empty := false, song_prefetch := 2,
              volume_adjustment := 1 } : Player).add
            ⟨[.ok (.sample 5)]⟩).next_sample).2.sounds
      = [⟨[.ok (.sample 5)]⟩] :=
  claim4_add_to_empty_emits_boundary _ _ rfl

/-- Claim C8: sending `set_volume(1/2)` then `set_volume(1)` leaves the
player's effective volume adjustment at 1 after both commands have been
applied, regardless of how many render ticks happen between or after the
two sends. -/
theorem claim8_volume_roundtrip (st : PlayerControllable) (k m : ℕ) :
    (batchTicks (m + 1)
        ((batchTicks k (st.send_command (.setVolume (1/2)))).send_command
          (.setVolume 1))).inner.volume_adjustment = 1 := by
  set C := batchTicks k (st.send_command (.setVolume (1/2))) with hC
  set D := C.send_command (.setVolume 1) with hD
  have hD_pend : D.pending = C.pending ++ [Command.setVolume 1] := rfl
  have hbatch := D.on_start_of_batch_eq
  have h1 : D.on_start_of_batch.1.pending = [] := by rw [hbatch]
  have h2 : D.on_start_of_batch.1.inner.volume_adjustment = 1 := by
    rw [hbatch]
    simpa [hD_pend] using foldl_apply_volume_append C.pending D.inner 1
  have h3 := batchTicks_pending_nil m D.on_start_of_batch.1 h1
  calc (batchTicks (m + 1) D).inner.volume_adjustment
      = (batchTicks m D.on_start_of_batch.1).inner.volume_adjustment := rfl
    _ = D.on_start_of_batch.1.inner.volume_adjustment := by rw [h3.1]
    _ = 1 := h2

/-- Claim C10: when all controller handles are gone, a subsequent
`on_start_of_batch` still drains and applies every previously sent command
in FIFO order; the bridge observes the disconnection (setting `finished`)
only after the command queue has been fully drained. -/
theorem claim10_disconnect_after_drain (st : PlayerControllable)
    (h : st.senderAlive = false) :
    st.on_start_of_batch.1.inner = st.pending.foldl (fun p c => c.apply p) st.inner
    ∧ st.on_start_of_batch.1.finished = true
    ∧ st.on_start_of_batch.1.pending = [] := by
  rw [st.on_start_of_batch_eq]
  simp [h]

/-- Claim C10 witness: two commands sent before the controllers dropped are
still applied by the next batch, which then marks the bridge finished. -/
theorem claim10_witness :
    ({ inner := { sounds := [], was_empty := false, song_prefetch := 2,
                      volume_adjustment := 1 },
          pending := [.add ⟨[.ok (.sample 7)]⟩, .setVolume (1/2)],
          senderAlive := false, finished := false } :
        PlayerControllable).on_start_of_batch.1.inner
      = ([.add ⟨[.ok (.sample 7)]⟩, .setVolume (1/2)] : List Command).foldl
          (fun p c => c.apply p)
          { sounds := [], was_empty := false, song_prefetch := 2,
              volume_adjustment := 1 }
    ∧ ({ inner := { sounds := [], was_empty := false, song_prefetch := 2,
                        volume_adjustment := 1 },
            pending := [.add ⟨[.ok (.sample 7)]⟩, .setVolume (1/2)],
            senderAlive := false, finished := false } :
          PlayerControllable).on_start_of_batch.1.finished = true
    ∧ ({ inner := { sounds := [], was_empty := false, song_prefetch := 2,
                        volume_adjustment := 1 },
            pending := [.add ⟨[.ok (.sample 7)]⟩, .setVolume (1/2)],
            senderAlive := false, finished := false } :
          PlayerControllable).on_start_of_batch.1.pending = [] :=
  claim10_disconnect_after_drain _ rfl

/-- Claim C3: render-tick sample production is infallible. For every state
of the audio graph, starting the batch and then filling a buffer of any
size (in particular the fixed BUFFER_SIZE) always succeeds: every pull
yields a value (Paused and Finished degrade to silence inside `fillLoop`),
and the two panic branches of the fill loop (decode error, mid-batch
metadata change) are never taken. -/
theorem claim3_render_tick_infallible (st : PlayerControllable) :
    (∀ n, ∃ buf st2,
      fillLoop n st.on_start_of_batch.1 = some (buf, st2) ∧ buf.length = n)
    ∧ ∃ buf st2,
        fillLoop BUFFER_SIZE st.on_start_of_batch.1 = some (buf, st2)
        ∧ buf.length = BUFFER_SIZE :=
  ⟨fun n => fillLoop_total n _, fillLoop_total BUFFER_SIZE _⟩

/-- Claim C5: the prefetch notification is issued if and only if the queue
length is at or below the configured `song_prefetch` threshold, at each of
the two points where the bridge checks: at the start of every batch (after
draining, so the check is re-armed each tick) and on a MetadataChanged
boundary during a pull. -/
theorem claim5_prefetch_iff (st : PlayerControllable) :
    (st.on_start_of_batch.2 = true ↔
      st.on_start_of_batch.1.inner.sounds.length ≤ st.inner.song_prefetch)
    ∧ (st.next_sample.notified = true ↔
      (st.next_sample.res = .ok .metadataChanged
        ∧ st.next_sample.state.inner.sounds.length ≤ st.inner.song_prefetch)) := by
  constructor
  · rw [st.on_start_of_batch_eq]
    simp [Player.should_prefetch, foldl_apply_song_prefetch]
  · have hpre := st.inner.next_sample_song_prefetch
    unfold PlayerControllable.next_sample
    rcases hp : st.inner.next_sample with ⟨r, inner2⟩
    rw [hp] at hpre
    rcases r with n | _
    · cases n with
      | sample v => simp
      | paused => simp
      | metadataChanged =>
        simp only [Prod.snd] at hpre
        simp [Player.should_prefetch, hpre]
      | finished => cases hf : st.finished <;> simp [hf]
    · simp

/-- Claim C6: the bridge never reports Finished while its controller side
is alive. In every reachable state, if `finished` is not set, a pull on an
empty inner Player returns Paused; and a pull on an empty inner Player can
return Finished only when `finished` has been set, which in turn happens
only after all controller handles were dropped. -/
theorem claim6_paused_until_disconnect (k : ℕ) (st : PlayerControllable)
    (hreach : BridgeReachable k st) (hempty : st.inner.sounds = []) :
    (st.finished = false → st.next_sample.res = .ok .paused)
    ∧ (st.next_sample.res = .ok .finished →
        st.finished = true ∧ st.senderAlive = false) := by
  have hpull : st.inner.next_sample = (.ok .finished, st.inner) := by
    unfold Player.next_sample
    rw [hempty]
  unfold PlayerControllable.next_sample
  rw [hpull]
  constructor
  · intro hfin
    simp [hfin]
  · intro hres
    cases hf : st.finished with
    | false =>
      rw [hf] at hres
      simp at hres
    | true => exact ⟨rfl, bridgeReachable_finished_inv hreach hf⟩

/-- Claim C6 witness: the freshly created bridge (reachable, empty, not
finished) reports Paused, not Finished. -/
theorem claim6_witness : (Player.new 2).next_sample.res = .ok .paused :=
  (claim6_paused_until_disconnect 2 (Player.new 2)
    Relation.ReflTransGen.refl rfl).1 rfl

/-- Claim C9: volume scaling is clamp-safe. For every i16 sample value and
every volume factor in the closed interval from 0 to 1, the scaled output
sample is representable as i16, and the saturating cast never actually
clamps: the result is exactly the truncation of the exact product. -/
theorem claim9_volume_scaling_clamp_safe (s : ℤ) (v : ℚ)
    (hs1 : -32768 ≤ s) (hs2 : s ≤ 32767) (hv1 : 0 ≤ v) (hv2 : v ≤ 1) :
    -32768 ≤ scaleSample v s ∧ scaleSample v s ≤ 32767
    ∧ scaleSample v s = ratTrunc ((s : ℚ) * v) := by
  have hs1q : (-32768 : ℚ) ≤ (s : ℚ) := by exact_mod_cast hs1
  have hs2q : (s : ℚ) ≤ 32767 := by exact_mod_cast hs2
  have hlo : (-32768 : ℚ) ≤ (s : ℚ) * v := by nlinarith
  have hhi : (s : ℚ) * v ≤ 32767 := by nlinarith
  have hcast1 : ((-32768 : ℤ) : ℚ) = (-32768 : ℚ) := by norm_num
  have hcast2 : ((32767 : ℤ) : ℚ) = (32767 : ℚ) := by norm_num
  have htr1 : (-32768 : ℤ) ≤ ratTrunc ((s : ℚ) * v) := by
    unfold ratTrunc
    split
    · rename_i hx
      have h0 : (0 : ℤ) ≤ ⌊(s : ℚ) * v⌋ := Int.floor_nonneg.mpr hx
      omega
    · calc (-32768 : ℤ) = ⌈((-32768 : ℤ) : ℚ)⌉ := (Int.ceil_intCast _).symm
        _ ≤ ⌈(s : ℚ) * v⌉ := Int.ceil_mono (by rw [hcast1]; exact hlo)
  have htr2 : ratTrunc ((s : ℚ) * v) ≤ 32767 := by
    unfold ratTrunc
    split
    · calc ⌊(s : ℚ) * v⌋ ≤ ⌊((32767 : ℤ) : ℚ)⌋ :=
            Int.floor_mono (by rw [hcast2]; exact hhi)
        _ = 32767 := Int.floor_intCast _
    · rename_i hx
      have hx0 : (s : ℚ) * v ≤ 0 := le_of_lt (lt_of_not_ge hx)
      have h0 : ⌈(s : ℚ) * v⌉ ≤ (0 : ℤ) := by
        rw [Int.ceil_le]
        simpa using hx0
      omega
  have heq : scaleSample v s = ratTrunc ((s : ℚ) * v) := by
    unfold scaleSample f32ToI16
    split
    · rename_i hx
      have hxeq : (s : ℚ) * v = -32768 := le_antisymm hx hlo
      rw [hxeq]
      unfold ratTrunc
      rw [if_neg (by norm_num)]
      rw [← hcast1, Int.ceil_intCast]
    · split
      · rename_i hx2
        have hxeq : (s : ℚ) * v = 32767 := le_antisymm hhi hx2
        rw [hxeq]
        unfold ratTrunc
        rw [if_pos (by norm_num)]
        rw [← hcast2, Int.floor_intCast]
      · rfl
  exact ⟨heq ▸ htr1, heq ▸ htr2, heq⟩

/-- Claim C9 witness: the extreme sample value at full volume stays in
range. -/
theorem claim9_witness :
    -32768 ≤ scaleSample 1 (-32768) ∧ scaleSample 1 (-32768) ≤ 32767
    ∧ scaleSample 1 (-32768) = ratTrunc (((-32768 : ℤ) : ℚ) * 1) :=
  claim9_volume_scaling_clamp_safe (-32768) 1 (by decide) (by decide)
    (by decide) (by decide)

/-- Claim C7: interstitial next-slot selection. For a non-empty slot map
(keys as minutes of the day) the scheduler always produces a target: the
earliest key strictly after now, on the current day (offset 0), when one
exists; otherwise the earliest key of the whole map on the following day
(offset 1). -/
theorem claim7_interstitial_next_slot (keys : List ℕ) (now : ℕ)
    (hne : keys ≠ []) :
    ∃ d t, nextInterstitial keys now = some (d, t) ∧ t ∈ keys
    ∧ ((∃ k ∈ keys, now < k) →
        d = 0 ∧ now < t ∧ ∀ k ∈ keys, now < k → t ≤ k)
    ∧ ((∀ k ∈ keys, k ≤ now) →
        d = 1 ∧ ∀ k ∈ keys, t ≤ k) := by
  have hperm := List.mergeSort_perm keys (fun a b => decide (a ≤ b))
  have hsort : List.Sorted (· ≤ ·) (keys.mergeSort (fun a b => decide (a ≤ b))) :=
    List.sorted_mergeSort' keys
  unfold nextInterstitial nextSlot
  cases hf : (keys.mergeSort (fun a b => decide (a ≤ b))).filter
      (fun k => decide (now < k)) with
  | cons t ts =>
    have hsortf : List.Sorted (· ≤ ·) (t :: ts) := by
      rw [← hf]
      exact List.Pairwise.sublist (List.filter_sublist _) hsort
    have htmem : t ∈ keys.mergeSort (fun a b => decide (a ≤ b))
        ∧ now < t := by
      have : t ∈ (keys.mergeSort (fun a b => decide (a ≤ b))).filter
          (fun k => decide (now < k)) := by rw [hf]; exact List.mem_cons_self t ts
      simpa using List.mem_filter.mp this
    have htk : t ∈ keys := hperm.mem_iff.mp htmem.1
    have hmin : ∀ k ∈ keys, now < k → t ≤ k := by
      intro k hk hnk
      have hkL : k ∈ (keys.mergeSort (fun a b => decide (a ≤ b))).filter
          (fun k => decide (now < k)) := by
        rw [List.mem_filter]
        exact ⟨hperm.mem_iff.mpr hk, by simpa using hnk⟩
      rw [hf] at hkL
      rcases List.mem_cons.mp hkL with h | h
      · exact le_of_eq h.symm
      · exact List.rel_of_sorted_cons hsortf k h
    refine ⟨0, t, ?_, htk, ?_, ?_⟩
    · simp [htmem.2]
    · intro _
      exact ⟨rfl, htmem.2, hmin⟩
    · intro habs
      exact absurd htmem.2 (not_lt.mpr (habs t htk))
  | nil =>
    have hLne : keys.mergeSort (fun a b => decide (a ≤ b)) ≠ [] := by
      intro h0
      exact hne (h0 ▸ hperm.symm).eq_nil
    obtain ⟨t, ts, hLeq⟩ : ∃ t ts,
        keys.mergeSort (fun a b => decide (a ≤ b)) = t :: ts := by
      cases hc : keys.mergeSort (fun a b => decide (a ≤ b)) with
      | nil => exact absurd hc hLne
      | cons x xs => exact ⟨x, xs, rfl⟩
    have hall : ∀ k ∈ keys, k ≤ now := by
      intro k hk
      have hkL := hperm.mem_iff.mpr hk
      have := List.filter_eq_nil_iff.mp hf k hkL
      simpa using this
    have hsortc : List.Sorted (· ≤ ·) (t :: ts) := hLeq ▸ hsort
    have htk : t ∈ keys := hperm.mem_iff.mp (hLeq ▸ List.mem_cons_self t ts)
    have hmin : ∀ k ∈ keys, t ≤ k := by
      intro k hk
      have hkL := hperm.mem_iff.mpr hk
      rw [hLeq] at hkL
      rcases List.mem_cons.mp hkL with h | h
      · exact le_of_eq h.symm
      · exact List.rel_of_sorted_cons hsortc k h
    have hnt : ¬ now < t := not_lt.mpr (hall t htk)
    refine ⟨1, t, ?_, htk, ?_, ?_⟩
    · simp [hLeq, hnt]
    · intro ⟨k, hk, hnk⟩
      exact absurd hnk (not_lt.mpr (hall k hk))
    · intro _
      exact ⟨rfl, hmin⟩

unseal List.merge List.mergeSort in
/-- Claim C7 witness: slots at 08:00 and 20:00 (480 and 1200 minutes) with
now at 21:00 (1260 minutes) target 08:00 of the following day. -/
theorem claim7_witness :
    nextInterstitial [480, 1200] 1260 = some (1, 480)
    ∧ ∃ d t, nextInterstitial [480, 1200] 1260 = some (d, t) ∧ t ∈ [480, 1200]
    ∧ ((∃ k ∈ [480, 1200], 1260 < k) →
        d = 0 ∧ 1260 < t ∧ ∀ k ∈ [480, 1200], 1260 < k → t ≤ k)
    ∧ ((∀ k ∈ [480, 1200], k ≤ 1260) →
        d = 1 ∧ ∀ k ∈ [480, 1200], t ≤ k) :=
  ⟨rfl, claim7_interstitial_next_slot [480, 1200] 1260 (by decide)⟩
